import Mathlib

/-!
Verification of the bitcoinerlab/explorer resilience layer.

Shallow embedding of the TypeScript sources:
* `src/src/electrum.ts`   — `ElectrumExplorer` (block-status cache, tip
  tracking, transaction history);
* `src/src/esplora.ts`    — `EsploraExplorer` (block-status cache, tip cache,
  paginated transaction history);
* `src/requestQueue.ts`   — `RequestQueue` (throttled retrying fetch);
* `src/address.ts`        — `reverseScriptHash`.

JavaScript numbers that hold block heights, timestamps and thresholds are
modelled as `Int`; an uninitialised (`undefined`) tip is `Option Int`, and the
JS comparisons `x > undefined` (false) and `undefined - x + 1 >= t`
(NaN-comparison, false) are modelled explicitly.  Network responses (headers,
pages of transactions, tip heights) are inputs to the functions, since the
code receives them from a transport.
-/

/-- `BlockStatus` record as in `src/interface.ts`. -/
structure BlockStatus where
  blockHeight : Int
  blockHash : String
  blockTime : Int
  irreversible : Bool
deriving DecidableEq, Repr

/-- The `Map<number, BlockStatus>` used by both explorers, as a function. -/
def BlockStatusMap : Type := Int → Option BlockStatus

/-- `map.set(k, v)`. -/
def mapSet (m : BlockStatusMap) (k : Int) (v : BlockStatus) : BlockStatusMap :=
  fun k2 => if k2 = k then some v else m k2

/-- JS `h > tip` where `tip` may be `undefined` (`x > undefined` is false). -/
def jsGtOpt (h : Int) (tip : Option Int) : Bool :=
  match tip with
  | some t => decide (h > t)
  | none => false

/-- JS `tip - h + 1 >= thresh` where `tip` may be `undefined`
(the NaN comparison is false). -/
def jsConfIrrev (tip : Option Int) (h thresh : Int) : Bool :=
  match tip with
  | some t => decide (t - h + 1 ≥ thresh)
  | none => false

/-- State of an `ElectrumExplorer`: the private fields that the modelled
methods read or write (`#tipBlockHeight` starts `undefined`). -/
structure ElectrumState where
  tipBlockHeight : Option Int
  blockStatusMap : BlockStatusMap
  irrevConfThresh : Int
  maxTxPerScriptPubKey : Nat

/-- `ElectrumExplorer.#updateBlockStatusMap(blockHeight, headerHex)`.
The header hex is decoded by `bitcoinjs-lib` into an id and a timestamp;
the decoded pair `(blockHash, blockTime)` is passed in directly. -/
def electrumUpdateBlockStatusMap (st : ElectrumState) (blockHeight : Int)
    (blockHash : String) (blockTime : Int) : BlockStatus × ElectrumState :=
  match st.blockStatusMap blockHeight with
  | some bs =>
    if bs.irreversible then (bs, st)
    else
      let irreversible := jsConfIrrev st.tipBlockHeight blockHeight st.irrevConfThresh
      let bs2 : BlockStatus := ⟨blockHeight, blockHash, blockTime, irreversible⟩
      (bs2, { st with blockStatusMap := mapSet st.blockStatusMap blockHeight bs2 })
  | none =>
      let irreversible := jsConfIrrev st.tipBlockHeight blockHeight st.irrevConfThresh
      let bs2 : BlockStatus := ⟨blockHeight, blockHash, blockTime, irreversible⟩
      (bs2, { st with blockStatusMap := mapSet st.blockStatusMap blockHeight bs2 })

/-- `ElectrumExplorer.fetchBlockStatus(blockHeight)`.  The server's header for
`blockHeight` is supplied decoded as `(blockHash, blockTime)`. -/
def electrumFetchBlockStatus (st : ElectrumState) (blockHeight : Int)
    (blockHash : String) (blockTime : Int) :
    Option BlockStatus × ElectrumState :=
  match st.blockStatusMap blockHeight with
  | some bs =>
    if bs.irreversible then (some bs, st)
    else if jsGtOpt blockHeight st.tipBlockHeight then (none, st)
    else
      let r := electrumUpdateBlockStatusMap st blockHeight blockHash blockTime
      (some r.1, r.2)
  | none =>
    if jsGtOpt blockHeight st.tipBlockHeight then (none, st)
    else
      let r := electrumUpdateBlockStatusMap st blockHeight blockHash blockTime
      (some r.1, r.2)

/-- A header notification `{ height, hex }` as received by the
`blockchain.headers.subscribe` callback. -/
structure Header where
  height : Int
  hex : String

/-- `ElectrumExplorer.#updateBlockTipHeight(header)`.  `parse` models
`Block.fromBuffer(Buffer.from(hex)).getId() / .timestamp`.  JS truthiness:
`header.hex` must be a non-empty string and `header.height` non-zero. -/
def electrumUpdateBlockTipHeight (parse : String → String × Int)
    (st : ElectrumState) (header : Header) : ElectrumState :=
  if header.hex ≠ "" ∧ header.height ≠ 0 ∧
      (st.tipBlockHeight = none ∨ jsGtOpt header.height st.tipBlockHeight = true) then
    let st2 := { st with tipBlockHeight := some header.height }
    (electrumUpdateBlockStatusMap st2 header.height (parse header.hex).1
      (parse header.hex).2).2
  else st

/-- Folding a sequence of header notifications through the subscription
callback (`connect` loops `#updateBlockTipHeight` over the received array). -/
def electrumProcessHeaders (parse : String → String × Int)
    (st : ElectrumState) (headers : List Header) : ElectrumState :=
  headers.foldl (electrumUpdateBlockTipHeight parse) st

/-- Order on optional tips: `undefined` is below everything. -/
def tipLe (a b : Option Int) : Prop :=
  match a, b with
  | none, _ => True
  | some _, none => False
  | some x, some y => x ≤ y

/-- An entry of `history.map(...)` in `fetchTxHistory` (both backends). -/
structure TxEntry where
  txId : String
  blockHeight : Int
  irreversible : Bool
deriving DecidableEq, Repr

/-- An item of `blockchainScripthash_getHistory`: `{ tx_hash, height }`
(`height` is `-1` for mempool transactions). -/
structure HistoryItem where
  tx_hash : String
  height : Int

/-- One step of the `history.map` body in `ElectrumExplorer.fetchTxHistory`:
maps height `-1` to `0`, bumps the tip if the transaction confirms above it,
and computes irreversibility (`numConfirmations` is `0` for `blockHeight = 0`,
and a NaN — hence never `≥ thresh` — when the tip is still `undefined`). -/
def electrumTxMapStep (st : ElectrumState) (item : HistoryItem) :
    TxEntry × ElectrumState :=
  let blockHeight : Int := if item.height = -1 then 0 else item.height
  let st2 := if jsGtOpt blockHeight st.tipBlockHeight then
      { st with tipBlockHeight := some blockHeight } else st
  let irreversible :=
    if blockHeight = 0 then decide ((0 : Int) ≥ st2.irrevConfThresh)
    else jsConfIrrev st2.tipBlockHeight blockHeight st2.irrevConfThresh
  (⟨item.tx_hash, blockHeight, irreversible⟩, st2)

/-- The `history.map(...)` loop of `ElectrumExplorer.fetchTxHistory`. -/
def electrumTxMap : ElectrumState → List HistoryItem → List TxEntry × ElectrumState
  | st, [] => ([], st)
  | st, item :: rest =>
    let p := electrumTxMapStep st item
    let q := electrumTxMap p.2 rest
    (p.1 :: q.1, q.2)

/-- `ElectrumExplorer.fetchTxHistory`, after address resolution and the
`getHistory` call: throws when the history is longer than
`#maxTxPerScriptPubKey`, otherwise maps it. -/
def electrumFetchTxHistory (st : ElectrumState) (history : List HistoryItem) :
    Except String (List TxEntry × ElectrumState) :=
  if history.length > st.maxTxPerScriptPubKey then
    Except.error "Too many transactions per address"
  else Except.ok (electrumTxMap st history)

/-- State of an `EsploraExplorer`: the private fields the modelled methods
read or write. -/
structure EsploraState where
  cachedTipBlockHeight : Int
  tipBlockHeightCacheTime : Int
  blockStatusMap : BlockStatusMap
  irrevConfThresh : Int
  maxTxPerScriptPubKey : Nat

/-- `#BLOCK_HEIGHT_CACHE_TIME` (seconds). -/
def BLOCK_HEIGHT_CACHE_TIME : Int := 3

/-- The `blockHeight && blockHeight > cached` part of `#getTipBlockHeight`'s
refetch condition (`0` is falsy). -/
def esploraForcedRefetch (blockHeight : Option Int) (cached : Int) : Bool :=
  match blockHeight with
  | some h => h != 0 && decide (h > cached)
  | none => false

/-- `EsploraExplorer.#getTipBlockHeight(blockHeight?)`.  `now` is the current
time in seconds and `remoteTip` the height the server would report if
`fetchBlockHeight` runs. -/
def esploraGetTipBlockHeight (st : EsploraState) (now remoteTip : Int)
    (blockHeight : Option Int) : Int × EsploraState :=
  if decide (now - st.tipBlockHeightCacheTime > BLOCK_HEIGHT_CACHE_TIME) ||
      esploraForcedRefetch blockHeight st.cachedTipBlockHeight then
    (remoteTip, { st with cachedTipBlockHeight := remoteTip,
                          tipBlockHeightCacheTime := now })
  else (st.cachedTipBlockHeight, st)

/-- The part of `EsploraExplorer.fetchBlockStatus` that runs after the cache
check fell through: read the tip, possibly bail out, fetch the block hash and
timestamp (supplied as `blockHash`/`blockTime`), read the tip again and store
the computed status. -/
def esploraFetchBlockStatusCompute (st : EsploraState) (blockHeight : Int)
    (now1 remote1 now2 remote2 : Int) (blockHash : String) (blockTime : Int) :
    Option BlockStatus × EsploraState :=
  let r1 := esploraGetTipBlockHeight st now1 remote1 none
  if blockHeight > r1.1 then (none, r1.2)
  else
    let r2 := esploraGetTipBlockHeight r1.2 now2 remote2 (some blockHeight)
    let irreversible := decide (r2.1 - blockHeight + 1 ≥ r2.2.irrevConfThresh)
    let bs : BlockStatus := ⟨blockHeight, blockHash, blockTime, irreversible⟩
    (some bs, { r2.2 with blockStatusMap := mapSet r2.2.blockStatusMap blockHeight bs })

/-- `EsploraExplorer.fetchBlockStatus(blockHeight)`. -/
def esploraFetchBlockStatus (st : EsploraState) (blockHeight : Int)
    (now1 remote1 now2 remote2 : Int) (blockHash : String) (blockTime : Int) :
    Option BlockStatus × EsploraState :=
  match st.blockStatusMap blockHeight with
  | some bs =>
    if bs.irreversible then (some bs, st)
    else esploraFetchBlockStatusCompute st blockHeight now1 remote1 now2 remote2
      blockHash blockTime
  | none => esploraFetchBlockStatusCompute st blockHeight now1 remote1 now2 remote2
      blockHash blockTime

/-- A transaction as returned by the Esplora `/txs` endpoints; `null` JSON
fields are `none`. -/
structure FetchedTx where
  txid : String
  block_height : Option Int
  block_hash : Option String
  block_time : Option Int

/-- JS truthiness of `status.block_hash && status.block_time &&
status.block_height` (`null`, `""` and `0` are falsy). -/
def esploraStatusTruthy (tx : FetchedTx) : Bool :=
  match tx.block_hash, tx.block_time, tx.block_height with
  | some hsh, some t, some bh => hsh != "" && t != 0 && bh != 0
  | _, _, _ => false

/-- One iteration of the `for (const fetchedTx of fetchedTxs)` body in
`EsploraExplorer.fetchTxHistory`.  `env k` supplies `(now, remoteTip)` for the
`k`-th `#getTipBlockHeight` call of the run; the call passes the local
`blockHeight`, still `0` at that point.  Throws when the accumulated history
exceeds `#maxTxPerScriptPubKey`. -/
def esploraProcessTx (env : Nat → Int × Int) (tx : FetchedTx)
    (acc : List TxEntry) (st : EsploraState) (k : Nat) :
    Except String (List TxEntry × EsploraState × Nat) :=
  let p : TxEntry × EsploraState × Nat :=
    match tx.block_hash, tx.block_time, tx.block_height with
    | some hsh, some t, some bh =>
      if hsh != "" && t != 0 && bh != 0 then
        let r := esploraGetTipBlockHeight st (env k).1 (env k).2 (some 0)
        let irreversible := decide (r.1 - bh + 1 ≥ r.2.irrevConfThresh)
        let bs : BlockStatus := ⟨bh, hsh, t, irreversible⟩
        ((⟨tx.txid, bh, irreversible⟩ : TxEntry),
         { r.2 with blockStatusMap := mapSet r.2.blockStatusMap bh bs }, k + 1)
      else ((⟨tx.txid, 0, false⟩ : TxEntry), st, k)
    | _, _, _ => ((⟨tx.txid, 0, false⟩ : TxEntry), st, k)
  let acc2 := acc ++ [p.1]
  if acc2.length > p.2.1.maxTxPerScriptPubKey then
    Except.error "Too many transactions per address"
  else Except.ok (acc2, p.2.1, p.2.2)

/-- The inner `for` loop over one fetched page. -/
def esploraProcessPage (env : Nat → Int × Int) :
    List FetchedTx → List TxEntry → EsploraState → Nat →
    Except String (List TxEntry × EsploraState × Nat)
  | [], acc, st, k => Except.ok (acc, st, k)
  | tx :: rest, acc, st, k =>
    match esploraProcessTx env tx acc st k with
    | Except.error e => Except.error e
    | Except.ok (acc2, st2, k2) => esploraProcessPage env rest acc2 st2 k2

/-- The `do { ... } while (lastTxid)` pagination loop of
`EsploraExplorer.fetchTxHistory`.  `pages` are the successive responses of the
`/txs` endpoints; an exhausted server answers with an empty page.  The loop
continues only when the page's last transaction has `block_height !== 0`
(note `null !== 0` holds in JS). -/
def esploraFetchTxHistoryLoop (env : Nat → Int × Int) :
    List (List FetchedTx) → List TxEntry → EsploraState → Nat →
    Except String (List TxEntry × EsploraState)
  | [], acc, st, _ => Except.ok (acc, st)
  | page :: rest, acc, st, k =>
    match page.getLast? with
    | none => Except.ok (acc, st)
    | some lastTx =>
      match esploraProcessPage env page acc st k with
      | Except.error e => Except.error e
      | Except.ok (acc2, st2, k2) =>
        if lastTx.block_height ≠ some 0 then
          esploraFetchTxHistoryLoop env rest acc2 st2 k2
        else Except.ok (acc2, st2)

/-- `EsploraExplorer.fetchTxHistory` after input validation: run the
pagination loop and reverse the accumulated history. -/
def esploraFetchTxHistory (env : Nat → Int × Int)
    (pages : List (List FetchedTx)) (st : EsploraState) :
    Except String (List TxEntry × EsploraState) :=
  match esploraFetchTxHistoryLoop env pages [] st 0 with
  | Except.error e => Except.error e
  | Except.ok (acc, st2) => Except.ok (acc.reverse, st2)

/-- Configuration of a `RequestQueue` (`src/requestQueue.ts`). -/
structure RQConfig where
  maxAttemptsForSoftErrors : Nat
  maxAttemptsForHardErrors : Nat
  unthrottleAfterOkCount : Nat
  maxConcurrentTasks : Nat

/-- Mutable fields of a `RequestQueue` (the `unthrottleTimeout` timer is
asynchronous and not modelled; it never fires during the synchronous parts of
the loop). -/
structure RQState where
  mustThrottle : Bool
  consecutiveOkResponses : Nat
  concurrentTasks : Int
deriving DecidableEq, Repr

/-- Outcome of one `fetch(...)` call of the underlying transport: a response
with an HTTP status (`id` distinguishes distinct response objects with the
same status), or a thrown error. -/
inductive RQOutcome where
  | resp (status : Nat) (id : Nat)
  | thrown (e : Nat)
deriving DecidableEq, Repr

/-- Observable events of a task run: the randomized throttle-jitter sleep,
and a fetch attempt recording the value of `concurrentTasks` at that moment. -/
inductive RQEvent where
  | throttleSleep
  | attempt (concurrent : Int)
deriving DecidableEq, Repr

/-- How a `RequestQueue.fetch` task ends: resolving with a response, (re-)
throwing a transport error, or the unreachable `throw new Error('RequestQueue
.fetch should have returned ...')` after the `while` guard fails. -/
inductive RQResult where
  | resolved (o : RQOutcome)
  | threw (e : Nat)
  | brokenLoop
deriving DecidableEq, Repr

/-- `response.status === 429 || 500 || 502 || 503 || 504`. -/
def isSoftErrorStatus (status : Nat) : Bool :=
  status == 429 || status == 500 || status == 502 || status == 503 || status == 504

/-- The `while (softErrorAttempts < max && hardErrorAttempts < max)` task body
of `RequestQueue.fetch`.  `transport i` is the outcome of the `i`-th fetch
attempt of this task.  Every iteration increments `softErrorAttempts`, so
`fuel = maxAttemptsForSoftErrors - softErrorAttempts` bounds the iterations;
`rqFetch` enters with `fuel = maxAttemptsForSoftErrors`, which never runs out
before the guard fails, so the `fuel = 0` case is unreachable.  Returns the
result, the final state, the number of attempts performed and the event
trace. -/
def rqTaskLoop (cfg : RQConfig) (transport : Nat → RQOutcome) :
    Nat → Nat → Nat → Nat → RQState → List RQEvent →
    RQResult × RQState × Nat × List RQEvent
  | 0, _, _, idx, st, trace => (RQResult.brokenLoop, st, idx, trace)
  | fuel + 1, soft, hard, idx, st, trace =>
    if soft < cfg.maxAttemptsForSoftErrors ∧ hard < cfg.maxAttemptsForHardErrors then
      let trace1 := if st.mustThrottle then trace ++ [RQEvent.throttleSleep] else trace
      let trace2 := trace1 ++ [RQEvent.attempt st.concurrentTasks]
      match transport idx with
      | RQOutcome.resp status id =>
        if isSoftErrorStatus status then
          let st2 := { st with mustThrottle := true, consecutiveOkResponses := 0 }
          if soft + 1 ≥ cfg.maxAttemptsForSoftErrors then
            (RQResult.resolved (RQOutcome.resp status id),
             { st2 with concurrentTasks := st2.concurrentTasks - 1 }, idx + 1, trace2)
          else rqTaskLoop cfg transport fuel (soft + 1) hard (idx + 1) st2 trace2
        else
          let st2 := { st with consecutiveOkResponses := st.consecutiveOkResponses + 1 }
          let st3 := if st2.consecutiveOkResponses > cfg.unthrottleAfterOkCount then
              { st2 with mustThrottle := false } else st2
          (RQResult.resolved (RQOutcome.resp status id),
           { st3 with concurrentTasks := st3.concurrentTasks - 1 }, idx + 1, trace2)
      | RQOutcome.thrown e =>
        let st2 := { st with mustThrottle := true, consecutiveOkResponses := 0 }
        if soft ≥ cfg.maxAttemptsForSoftErrors - 1 ∨
            hard ≥ cfg.maxAttemptsForHardErrors - 1 then
          (RQResult.threw e,
           { st2 with concurrentTasks := st2.concurrentTasks - 1 }, idx + 1, trace2)
        else rqTaskLoop cfg transport fuel (soft + 1) (hard + 1) (idx + 1) st2 trace2
    else (RQResult.brokenLoop, st, idx, trace)

/-- The admission guard of `RequestQueue.fetch`: a new task's polling loop
exits immediately iff there is a free concurrency slot and throttling is
off. -/
def rqAdmitsImmediately (cfg : RQConfig) (st : RQState) : Prop :=
  st.concurrentTasks < (cfg.maxConcurrentTasks : Int) ∧ st.mustThrottle = false

/-- `RequestQueue.fetch(...)` once the admission loop has exited:
`this.concurrentTasks++` followed by the task body. -/
def rqFetch (cfg : RQConfig) (transport : Nat → RQOutcome) (st : RQState) :
    RQResult × RQState × Nat × List RQEvent :=
  rqTaskLoop cfg transport cfg.maxAttemptsForSoftErrors 0 0 0
    { st with concurrentTasks := st.concurrentTasks + 1 } []

/-- The state after one `RequestQueue.fetch` task whose single attempt
receives an HTTP 200 response. -/
def rqOkTask (cfg : RQConfig) (st : RQState) : RQState :=
  (rqFetch cfg (fun _ => RQOutcome.resp 200 0) st).2.1

/-- `n` consecutive tasks each receiving a single successful response. -/
def rqOkTasks (cfg : RQConfig) : Nat → RQState → RQState
  | 0, st => st
  | n + 1, st => rqOkTasks cfg n (rqOkTask cfg st)

/-- Value of a hexadecimal digit character, as accepted by
`Buffer.from(s, 'hex')`. -/
def hexDigitVal (c : Char) : Option Nat :=
  if '0' ≤ c ∧ c ≤ '9' then some (c.toNat - 48)
  else if 'a' ≤ c ∧ c ≤ 'f' then some (c.toNat - 87)
  else if 'A' ≤ c ∧ c ≤ 'F' then some (c.toNat - 55)
  else none

/-- `Buffer.from(s, 'hex')`: decode pairs of hex digits into bytes, stopping
at the first invalid pair or odd trailing digit (Node semantics). -/
def hexDecode : List Char → List Nat
  | c1 :: c2 :: rest =>
    match hexDigitVal c1, hexDigitVal c2 with
    | some h, some l => (16 * h + l) :: hexDecode rest
    | _, _ => []
  | _ => []

/-- Lower-case hex digit for a value `< 16`. -/
def toHexDigit (n : Nat) : Char :=
  if n < 10 then Char.ofNat (48 + n) else Char.ofNat (87 + n)

/-- `buffer.toString('hex')`: two lower-case digits per byte. -/
def hexEncode : List Nat → List Char
  | [] => []
  | b :: rest => toHexDigit (b / 16) :: toHexDigit (b % 16) :: hexEncode rest

/-- `reverseScriptHash(scriptHash)` from `src/address.ts`:
`Buffer.from(scriptHash, 'hex').reverse().toString('hex')` when `scriptHash`
is truthy (a non-empty string), `undefined` otherwise. -/
def reverseScriptHash (scriptHash : Option String) : Option String :=
  match scriptHash with
  | some s => if s = "" then none
      else some (String.mk (hexEncode (hexDecode s.data).reverse))
  | none => none

/-- The sixteen characters of a lower-case hexadecimal string. -/
def lowerHexChars : List Char := "0123456789abcdef".data

/-- A valid lower-case hexadecimal string of even length. -/
def IsLowerHexEven (s : String) : Prop :=
  (∀ c ∈ s.data, c ∈ lowerHexChars) ∧ s.data.length % 2 = 0

/-! ## Helper lemmas -/

lemma esploraGetTip_proj (st : EsploraState) (now : Int) (bh : Option Int) (tip : Int)
    (htip : st.cachedTipBlockHeight = tip) :
    (esploraGetTipBlockHeight st now tip bh).1 = tip ∧
    (esploraGetTipBlockHeight st now tip bh).2.cachedTipBlockHeight = tip ∧
    (esploraGetTipBlockHeight st now tip bh).2.blockStatusMap = st.blockStatusMap ∧
    (esploraGetTipBlockHeight st now tip bh).2.irrevConfThresh = st.irrevConfThresh := by
  unfold esploraGetTipBlockHeight
  split <;> simp_all

lemma electrumUpdate_result (st : ElectrumState) (h : Int) (hash : String) (time : Int)
    (hc : ∀ bs, st.blockStatusMap h = some bs → bs.irreversible = false) :
    (electrumUpdateBlockStatusMap st h hash time).1 =
      ⟨h, hash, time, jsConfIrrev st.tipBlockHeight h st.irrevConfThresh⟩ := by
  unfold electrumUpdateBlockStatusMap
  cases hm : st.blockStatusMap h with
  | none => simp
  | some bs => simp [hc bs hm]

lemma electrumFetch_noIrrevCache (st : ElectrumState) (h : Int) (hash : String)
    (time : Int) (hc : ∀ bs, st.blockStatusMap h = some bs → bs.irreversible = false) :
    electrumFetchBlockStatus st h hash time =
      if jsGtOpt h st.tipBlockHeight then (none, st)
      else (some (electrumUpdateBlockStatusMap st h hash time).1,
            (electrumUpdateBlockStatusMap st h hash time).2) := by
  unfold electrumFetchBlockStatus
  cases hm : st.blockStatusMap h with
  | none => rfl
  | some bs => simp [hc bs hm]

lemma esploraFetch_noIrrevCache (st : EsploraState) (h now1 rem1 now2 rem2 : Int)
    (hash : String) (time : Int)
    (hc : ∀ bs, st.blockStatusMap h = some bs → bs.irreversible = false) :
    esploraFetchBlockStatus st h now1 rem1 now2 rem2 hash time =
      esploraFetchBlockStatusCompute st h now1 rem1 now2 rem2 hash time := by
  unfold esploraFetchBlockStatus
  cases hm : st.blockStatusMap h with
  | none => rfl
  | some bs => simp [hc bs hm]

lemma esploraCompute_stableTip (st : EsploraState) (h tip now1 now2 : Int)
    (hash : String) (time : Int) (htip : st.cachedTipBlockHeight = tip) :
    (esploraFetchBlockStatusCompute st h now1 tip now2 tip hash time).1 =
      if h > tip then none
      else some ⟨h, hash, time, decide (tip - h + 1 ≥ st.irrevConfThresh)⟩ := by
  obtain ⟨e1, e2, _, e4⟩ := esploraGetTip_proj st now1 none tip htip
  obtain ⟨f1, _, _, f4⟩ :=
    esploraGetTip_proj (esploraGetTipBlockHeight st now1 tip none).2 now2 (some h) tip e2
  unfold esploraFetchBlockStatusCompute
  simp only [e1, f1, f4, e4]
  split <;> rfl

/-! ## C1 -/

/-- C1: on both backends, with the current tip equal to `tip` (Electrum:
`#tipBlockHeight`; Esplora: the cached and the server-reported tip) and no
already-irreversible cache entry at the queried height, `fetchBlockStatus`
returns `undefined` for a height above the tip, and otherwise a `BlockStatus`
whose `irreversible` field is `(tip - blockHeight + 1) >= irrevConfThresh`. -/
theorem fetchBlockStatus_absent_or_threshold
    (est : ElectrumState) (es : EsploraState) (h tip : Int)
    (hash : String) (time now1 now2 : Int)
    (hetip : est.tipBlockHeight = some tip)
    (hecache : ∀ bs, est.blockStatusMap h = some bs → bs.irreversible = false)
    (hstip : es.cachedTipBlockHeight = tip)
    (hscache : ∀ bs, es.blockStatusMap h = some bs → bs.irreversible = false) :
    ((h > tip → (electrumFetchBlockStatus est h hash time).1 = none) ∧
     (h ≤ tip → (electrumFetchBlockStatus est h hash time).1 =
        some ⟨h, hash, time, decide (tip - h + 1 ≥ est.irrevConfThresh)⟩)) ∧
    ((h > tip → (esploraFetchBlockStatus es h now1 tip now2 tip hash time).1 = none) ∧
     (h ≤ tip → (esploraFetchBlockStatus es h now1 tip now2 tip hash time).1 =
        some ⟨h, hash, time, decide (tip - h + 1 ≥ es.irrevConfThresh)⟩)) := by
  rw [electrumFetch_noIrrevCache est h hash time hecache,
      esploraFetch_noIrrevCache es h now1 tip now2 tip hash time hscache]
  rw [esploraCompute_stableTip es h tip now1 now2 hash time hstip]
  constructor
  · constructor
    · intro hgt
      simp [jsGtOpt, hetip, hgt]
    · intro hle
      have hfalse : jsGtOpt h est.tipBlockHeight = false := by
        simp [jsGtOpt, hetip]
        omega
      rw [hfalse]
      simp only [Bool.false_eq_true, if_false]
      rw [electrumUpdate_result est h hash time hecache]
      simp [jsConfIrrev, hetip]
  · constructor
    · intro hgt
      simp [hgt]
    · intro hle
      simp [show ¬h > tip from not_lt.2 hle]

/-- Witness for C1: threshold 3, tip 10; height 8 is irreversible (3 ≥ 3),
height 9 is not (2 < 3), height 11 is not yet known. -/
theorem fetchBlockStatus_absent_or_threshold_witness :
    (8 : Int) ≤ 10 ∧ (9 : Int) ≤ 10 ∧ (11 : Int) > 10 ∧
    (electrumFetchBlockStatus ⟨some 10, fun _ => none, 3, 1000⟩ 8 "h" 0).1 =
      some ⟨8, "h", 0, true⟩ ∧
    (electrumFetchBlockStatus ⟨some 10, fun _ => none, 3, 1000⟩ 9 "h" 0).1 =
      some ⟨9, "h", 0, false⟩ ∧
    (electrumFetchBlockStatus ⟨some 10, fun _ => none, 3, 1000⟩ 11 "h" 0).1 = none ∧
    (esploraFetchBlockStatus ⟨10, 0, fun _ => none, 3, 1000⟩ 8 0 10 0 10 "h" 0).1 =
      some ⟨8, "h", 0, true⟩ ∧
    (esploraFetchBlockStatus ⟨10, 0, fun _ => none, 3, 1000⟩ 9 0 10 0 10 "h" 0).1 =
      some ⟨9, "h", 0, false⟩ ∧
    (esploraFetchBlockStatus ⟨10, 0, fun _ => none, 3, 1000⟩ 11 0 10 0 10 "h" 0).1 =
      none := by
  have T8 := fetchBlockStatus_absent_or_threshold ⟨some 10, fun _ => none, 3, 1000⟩
    ⟨10, 0, fun _ => none, 3, 1000⟩ 8 10 "h" 0 0 0 rfl (fun bs hbs => nomatch hbs)
    rfl (fun bs hbs => nomatch hbs)
  have T9 := fetchBlockStatus_absent_or_threshold ⟨some 10, fun _ => none, 3, 1000⟩
    ⟨10, 0, fun _ => none, 3, 1000⟩ 9 10 "h" 0 0 0 rfl (fun bs hbs => nomatch hbs)
    rfl (fun bs hbs => nomatch hbs)
  have T11 := fetchBlockStatus_absent_or_threshold ⟨some 10, fun _ => none, 3, 1000⟩
    ⟨10, 0, fun _ => none, 3, 1000⟩ 11 10 "h" 0 0 0 rfl (fun bs hbs => nomatch hbs)
    rfl (fun bs hbs => nomatch hbs)
  exact ⟨by decide, by decide, by decide, T8.1.2 (by decide), T9.1.2 (by decide),
    T11.1.1 (by decide), T8.2.2 (by decide), T9.2.2 (by decide), T11.2.1 (by decide)⟩

/-! ## C2 -/

/-- C2 (amended): when the cache holds an irreversible record at the queried
height, `fetchBlockStatus` on both backends and Electrum's
`#updateBlockStatusMap` return exactly that record and leave the whole state
(cache included) untouched, so repeated queries are idempotent. -/
theorem fetchBlockStatus_irreversible_cached_immutable
    (est : ElectrumState) (es : EsploraState) (h : Int) (bsE bsS : BlockStatus)
    (hash : String) (time now1 rem1 now2 rem2 : Int)
    (hmE : est.blockStatusMap h = some bsE) (hiE : bsE.irreversible = true)
    (hmS : es.blockStatusMap h = some bsS) (hiS : bsS.irreversible = true) :
    electrumFetchBlockStatus est h hash time = (some bsE, est) ∧
    electrumUpdateBlockStatusMap est h hash time = (bsE, est) ∧
    esploraFetchBlockStatus es h now1 rem1 now2 rem2 hash time = (some bsS, es) := by
  unfold electrumFetchBlockStatus electrumUpdateBlockStatusMap esploraFetchBlockStatus
  simp [hmE, hiE, hmS, hiS]

/-- Witness for C2: a concrete irreversible cache entry at height 5 is
returned unchanged by both backends. -/
theorem fetchBlockStatus_irreversible_cached_immutable_witness :
    electrumFetchBlockStatus
      ⟨some 10, fun k => if k = 5 then some ⟨5, "A", 100, true⟩ else none, 3, 1000⟩
      5 "B" 200 =
      (some ⟨5, "A", 100, true⟩,
       ⟨some 10, fun k => if k = 5 then some ⟨5, "A", 100, true⟩ else none, 3, 1000⟩) ∧
    electrumUpdateBlockStatusMap
      ⟨some 10, fun k => if k = 5 then some ⟨5, "A", 100, true⟩ else none, 3, 1000⟩
      5 "B" 200 =
      (⟨5, "A", 100, true⟩,
       ⟨some 10, fun k => if k = 5 then some ⟨5, "A", 100, true⟩ else none, 3, 1000⟩) ∧
    esploraFetchBlockStatus
      ⟨10, 0, fun k => if k = 5 then some ⟨5, "A", 100, true⟩ else none, 3, 1000⟩
      5 0 10 0 10 "B" 200 =
      (some ⟨5, "A", 100, true⟩,
       ⟨10, 0, fun k => if k = 5 then some ⟨5, "A", 100, true⟩ else none, 3, 1000⟩) :=
  fetchBlockStatus_irreversible_cached_immutable
    ⟨some 10, fun k => if k = 5 then some ⟨5, "A", 100, true⟩ else none, 3, 1000⟩
    ⟨10, 0, fun k => if k = 5 then some ⟨5, "A", 100, true⟩ else none, 3, 1000⟩
    5 ⟨5, "A", 100, true⟩ ⟨5, "A", 100, true⟩ "B" 200 0 10 0 10
    (by simp) rfl (by simp) rfl

/-- Counterexample for C2 as stated: `EsploraExplorer.fetchTxHistory` calls
`blockStatusMap.set` without checking the cached entry, so a run over a
transaction confirmed at height 5 replaces the existing irreversible record
`⟨5, "A", 100, true⟩` with a freshly computed (distinct) record — an
operation does replace an irreversible cache entry. -/
theorem esploraFetchTxHistory_overwrites_irreversible :
    (fun k => if k = (5 : Int) then some (⟨5, "A", 100, true⟩ : BlockStatus) else none) 5 =
      some ⟨5, "A", 100, true⟩ ∧
    (⟨5, "A", 100, true⟩ : BlockStatus).irreversible = true ∧
    Except.map (fun r => r.2.blockStatusMap 5)
      (esploraFetchTxHistory (fun _ => (0, 10))
        [[⟨"t", some 5, some "B", some 200⟩]]
        ⟨10, 0, fun k => if k = 5 then some ⟨5, "A", 100, true⟩ else none, 3, 1000⟩) =
      Except.ok (some ⟨5, "B", 200, true⟩) ∧
    (⟨5, "B", 200, true⟩ : BlockStatus) ≠ ⟨5, "A", 100, true⟩ := by
  refine ⟨by simp, rfl, ?_, by decide⟩
  rfl

/-! ## C3 -/

lemma tipLe_refl (a : Option Int) : tipLe a a := by
  cases a <;> simp [tipLe]

lemma tipLe_trans {a b c : Option Int} (h1 : tipLe a b) (h2 : tipLe b c) :
    tipLe a c := by
  cases a <;> cases b <;> cases c <;> simp_all [tipLe]
  omega

lemma electrumUpdateBlockStatusMap_tip (st : ElectrumState) (h : Int)
    (hash : String) (time : Int) :
    (electrumUpdateBlockStatusMap st h hash time).2.tipBlockHeight =
      st.tipBlockHeight := by
  unfold electrumUpdateBlockStatusMap
  cases st.blockStatusMap h
  · rfl
  · dsimp only
    split <;> rfl

lemma electrumUpdateBlockTipHeight_mono (parse : String → String × Int)
    (st : ElectrumState) (hd : Header) :
    tipLe st.tipBlockHeight
      (electrumUpdateBlockTipHeight parse st hd).tipBlockHeight := by
  unfold electrumUpdateBlockTipHeight
  split
  · rename_i hcond
    rw [electrumUpdateBlockStatusMap_tip]
    obtain ⟨-, -, h3⟩ := hcond
    cases h3 with
    | inl hnone => simp [hnone, tipLe]
    | inr hgt =>
      cases htip : st.tipBlockHeight with
      | none => simp [tipLe]
      | some t =>
        rw [htip] at hgt
        simp only [jsGtOpt, decide_eq_true_eq] at hgt
        simp [tipLe]
        omega
  · exact tipLe_refl _

/-- C3: across any sequence of header notifications the Electrum session's
tip is monotonically non-decreasing, and a header whose height is not
strictly greater than the current tip leaves the state (tip and cache)
entirely unchanged. -/
theorem electrum_tip_monotone (parse : String → String × Int) :
    (∀ (st : ElectrumState) (headers : List Header),
      tipLe st.tipBlockHeight
        (electrumProcessHeaders parse st headers).tipBlockHeight) ∧
    (∀ (st : ElectrumState) (hd : Header) (t : Int),
      st.tipBlockHeight = some t → hd.height ≤ t →
      electrumUpdateBlockTipHeight parse st hd = st) := by
  constructor
  · intro st headers
    induction headers generalizing st with
    | nil => exact tipLe_refl _
    | cons hd rest ih =>
      exact tipLe_trans (electrumUpdateBlockTipHeight_mono parse st hd)
        (ih (electrumUpdateBlockTipHeight parse st hd))
  · intro st hd t htip hle
    unfold electrumUpdateBlockTipHeight
    rw [if_neg]
    rintro ⟨-, -, h3⟩
    cases h3 with
    | inl hnone => rw [htip] at hnone; cases hnone
    | inr hgt =>
      rw [htip] at hgt
      simp only [jsGtOpt, decide_eq_true_eq] at hgt
      omega

/-- Witness for C3: with the tip at height 5, an out-of-order notification
for height 3 is ignored. -/
theorem electrum_tip_monotone_witness :
    (3 : Int) ≤ 5 ∧
    electrumUpdateBlockTipHeight (fun _ => ("", 0))
      ⟨some 5, fun _ => none, 3, 1000⟩ ⟨3, "aa"⟩ =
      ⟨some 5, fun _ => none, 3, 1000⟩ :=
  ⟨by decide,
   (electrum_tip_monotone (fun _ => ("", 0))).2
     ⟨some 5, fun _ => none, 3, 1000⟩ ⟨3, "aa"⟩ 5 rfl (by decide)⟩

/-! ## C4 -/

lemma rqTaskLoop_all429 (cfg : RQConfig) (ids : Nat → Nat) :
    ∀ (fuel soft hard idx : Nat) (st : RQState) (trace : List RQEvent),
      soft < cfg.maxAttemptsForSoftErrors →
      hard < cfg.maxAttemptsForHardErrors →
      cfg.maxAttemptsForSoftErrors - soft ≤ fuel →
      (rqTaskLoop cfg (fun i => RQOutcome.resp 429 (ids i))
          fuel soft hard idx st trace).1 =
        RQResult.resolved (RQOutcome.resp 429
          (ids (idx + (cfg.maxAttemptsForSoftErrors - soft) - 1))) ∧
      (rqTaskLoop cfg (fun i => RQOutcome.resp 429 (ids i))
          fuel soft hard idx st trace).2.2.1 =
        idx + (cfg.maxAttemptsForSoftErrors - soft) ∧
      (rqTaskLoop cfg (fun i => RQOutcome.resp 429 (ids i))
          fuel soft hard idx st trace).2.1.concurrentTasks =
        st.concurrentTasks - 1 := by
  intro fuel
  induction fuel with
  | zero => intro soft hard idx st trace hs hh hf; omega
  | succ fuel ih =>
    intro soft hard idx st trace hs hh hf
    simp only [rqTaskLoop]
    rw [if_pos ⟨hs, hh⟩]
    simp only [isSoftErrorStatus]
    norm_num
    by_cases hlast : soft + 1 ≥ cfg.maxAttemptsForSoftErrors
    · rw [if_pos hlast]
      have : cfg.maxAttemptsForSoftErrors - soft = 1 := by omega
      simp [this]
    · rw [if_neg hlast]
      have h1 : soft + 1 < cfg.maxAttemptsForSoftErrors := by omega
      have h2 : cfg.maxAttemptsForSoftErrors - (soft + 1) ≤ fuel := by omega
      obtain ⟨r1, r2, r3⟩ := ih (soft + 1) hard (idx + 1) _ _ h1 hh h2
      have harg : idx + 1 + (cfg.maxAttemptsForSoftErrors - (soft + 1)) - 1 =
          idx + (cfg.maxAttemptsForSoftErrors - soft) - 1 := by omega
      have harg2 : idx + 1 + (cfg.maxAttemptsForSoftErrors - (soft + 1)) =
          idx + (cfg.maxAttemptsForSoftErrors - soft) := by omega
      rw [harg] at r1
      rw [harg2] at r2
      exact ⟨r1, r2, r3⟩

/-- C4: with `maxAttemptsForSoftErrors = n` (n ≥ 1, hard budget ≥ 1) and a
transport that answers every attempt with HTTP 429, `RequestQueue.fetch`
performs exactly `n` attempts and resolves with the last attempt's 429
response instead of throwing; the concurrency slot is given back. -/
theorem rqFetch_soft_exhaustion_returns_last_response
    (n m u c : Nat) (ids : Nat → Nat) (st : RQState)
    (hn : 1 ≤ n) (hm : 1 ≤ m) :
    (rqFetch ⟨n, m, u, c⟩ (fun i => RQOutcome.resp 429 (ids i)) st).1 =
      RQResult.resolved (RQOutcome.resp 429 (ids (n - 1))) ∧
    (rqFetch ⟨n, m, u, c⟩ (fun i => RQOutcome.resp 429 (ids i)) st).2.2.1 = n ∧
    (rqFetch ⟨n, m, u, c⟩ (fun i => RQOutcome.resp 429 (ids i)) st).2.1.concurrentTasks =
      st.concurrentTasks := by
  obtain ⟨r1, r2, r3⟩ := rqTaskLoop_all429 ⟨n, m, u, c⟩ ids n 0 0 0
    { st with concurrentTasks := st.concurrentTasks + 1 } [] hn hm (by simp)
  unfold rqFetch
  refine ⟨?_, ?_, ?_⟩
  · simpa using r1
  · simpa using r2
  · rw [r3]
    simp

/-- Witness for C4: soft budget 3, persistent 429s → exactly 3 attempts and
the third 429 response is returned. -/
theorem rqFetch_soft_exhaustion_returns_last_response_witness :
    1 ≤ 3 ∧ 1 ≤ 5 ∧
    (rqFetch ⟨3, 5, 10, 30⟩ (fun i => RQOutcome.resp 429 i) ⟨false, 0, 0⟩).1 =
      RQResult.resolved (RQOutcome.resp 429 2) ∧
    (rqFetch ⟨3, 5, 10, 30⟩ (fun i => RQOutcome.resp 429 i) ⟨false, 0, 0⟩).2.2.1 = 3 := by
  have T := rqFetch_soft_exhaustion_returns_last_response 3 5 10 30 (fun i => i)
    ⟨false, 0, 0⟩ (by decide) (by decide)
  exact ⟨by decide, by decide, T.1, T.2.1⟩

/-! ## C5 -/

lemma rqTaskLoop_allThrow (cfg : RQConfig) (errs : Nat → Nat) :
    ∀ (fuel soft hard idx : Nat) (st : RQState) (trace : List RQEvent),
      soft = hard →
      hard < min cfg.maxAttemptsForSoftErrors cfg.maxAttemptsForHardErrors →
      min cfg.maxAttemptsForSoftErrors cfg.maxAttemptsForHardErrors - hard ≤ fuel →
      (rqTaskLoop cfg (fun i => RQOutcome.thrown (errs i))
          fuel soft hard idx st trace).1 =
        RQResult.threw (errs (idx +
          (min cfg.maxAttemptsForSoftErrors cfg.maxAttemptsForHardErrors - hard) - 1)) ∧
      (rqTaskLoop cfg (fun i => RQOutcome.thrown (errs i))
          fuel soft hard idx st trace).2.2.1 =
        idx + (min cfg.maxAttemptsForSoftErrors cfg.maxAttemptsForHardErrors - hard) ∧
      (rqTaskLoop cfg (fun i => RQOutcome.thrown (errs i))
          fuel soft hard idx st trace).2.1.concurrentTasks =
        st.concurrentTasks - 1 := by
  intro fuel
  induction fuel with
  | zero => intro soft hard idx st trace hsh hlt hf; omega
  | succ fuel ih =>
    intro soft hard idx st trace hsh hlt hf
    have hs : soft < cfg.maxAttemptsForSoftErrors := by omega
    have hh : hard < cfg.maxAttemptsForHardErrors := by omega
    simp only [rqTaskLoop]
    rw [if_pos ⟨hs, hh⟩]
    by_cases hterm : soft ≥ cfg.maxAttemptsForSoftErrors - 1 ∨
        hard ≥ cfg.maxAttemptsForHardErrors - 1
    · rw [if_pos hterm]
      have : min cfg.maxAttemptsForSoftErrors cfg.maxAttemptsForHardErrors - hard = 1 := by
        omega
      simp [this]
    · rw [if_neg hterm]
      have h1 : soft + 1 = hard + 1 := by omega
      have h2 : hard + 1 <
          min cfg.maxAttemptsForSoftErrors cfg.maxAttemptsForHardErrors := by omega
      have h3 : min cfg.maxAttemptsForSoftErrors cfg.maxAttemptsForHardErrors -
          (hard + 1) ≤ fuel := by omega
      obtain ⟨r1, r2, r3⟩ := ih (soft + 1) (hard + 1) (idx + 1) _ _ h1 h2 h3
      have harg : idx + 1 +
          (min cfg.maxAttemptsForSoftErrors cfg.maxAttemptsForHardErrors - (hard + 1)) - 1 =
          idx + (min cfg.maxAttemptsForSoftErrors cfg.maxAttemptsForHardErrors - hard) - 1 := by
        omega
      have harg2 : idx + 1 +
          (min cfg.maxAttemptsForSoftErrors cfg.maxAttemptsForHardErrors - (hard + 1)) =
          idx + (min cfg.maxAttemptsForSoftErrors cfg.maxAttemptsForHardErrors - hard) := by
        omega
      rw [harg] at r1
      rw [harg2] at r2
      exact ⟨r1, r2, r3⟩

/-- C5: with `maxAttemptsForHardErrors = m` (1 ≤ m ≤ soft budget) and a
transport that throws on every attempt, `RequestQueue.fetch` performs exactly
`m` attempts and then rethrows the error thrown at the last attempt (thrown
attempts count against both budgets: in general the run stops after
`min soft hard` attempts, which is `m` here); the concurrency slot is given
back. -/
theorem rqFetch_hard_exhaustion_rethrows
    (n m u c : Nat) (errs : Nat → Nat) (st : RQState)
    (hm : 1 ≤ m) (hmn : m ≤ n) :
    (rqFetch ⟨n, m, u, c⟩ (fun i => RQOutcome.thrown (errs i)) st).1 =
      RQResult.threw (errs (m - 1)) ∧
    (rqFetch ⟨n, m, u, c⟩ (fun i => RQOutcome.thrown (errs i)) st).2.2.1 = m ∧
    (rqFetch ⟨n, m, u, c⟩ (fun i => RQOutcome.thrown (errs i)) st).2.1.concurrentTasks =
      st.concurrentTasks := by
  have hmin : min n m = m := by omega
  obtain ⟨r1, r2, r3⟩ := rqTaskLoop_allThrow ⟨n, m, u, c⟩ errs n 0 0 0
    { st with concurrentTasks := st.concurrentTasks + 1 } [] rfl
    (show (0 : Nat) < min n m by omega) (show min n m - 0 ≤ n by omega)
  unfold rqFetch
  refine ⟨?_, ?_, ?_⟩
  · simp only [r1]
    congr 1
    simp [hmin]
  · simp only [r2]
    simp [hmin]
  · rw [r3]
    simp

/-- Witness for C5: hard budget 2, always-throwing transport → exactly 2
attempts, then the second attempt's error is rethrown. -/
theorem rqFetch_hard_exhaustion_rethrows_witness :
    1 ≤ 2 ∧ 2 ≤ 100 ∧
    (rqFetch ⟨100, 2, 10, 30⟩ (fun i => RQOutcome.thrown (i + 7)) ⟨false, 0, 0⟩).1 =
      RQResult.threw 8 ∧
    (rqFetch ⟨100, 2, 10, 30⟩ (fun i => RQOutcome.thrown (i + 7)) ⟨false, 0, 0⟩).2.2.1 =
      2 := by
  have T := rqFetch_hard_exhaustion_rethrows 100 2 10 30 (fun i => i + 7)
    ⟨false, 0, 0⟩ (by decide) (by decide)
  exact ⟨by decide, by decide, T.1, T.2.1⟩

/-! ## C6 -/

lemma rqTaskLoop_trace (cfg : RQConfig) (tr : Nat → RQOutcome) :
    ∀ (fuel soft hard idx : Nat) (st : RQState) (trace : List RQEvent),
      (∀ c, RQEvent.attempt c ∈ (rqTaskLoop cfg tr fuel soft hard idx st trace).2.2.2 →
        RQEvent.attempt c ∈ trace ∨ c = st.concurrentTasks) ∧
      ((rqTaskLoop cfg tr fuel soft hard idx st trace).1 ≠ RQResult.brokenLoop →
        (rqTaskLoop cfg tr fuel soft hard idx st trace).2.1.concurrentTasks =
          st.concurrentTasks - 1) := by
  intro fuel
  induction fuel with
  | zero =>
    intro soft hard idx st trace
    exact ⟨fun c hc => Or.inl hc, fun hr => absurd rfl hr⟩
  | succ fuel ih =>
    intro soft hard idx st trace
    simp only [rqTaskLoop]
    by_cases hguard : soft < cfg.maxAttemptsForSoftErrors ∧
        hard < cfg.maxAttemptsForHardErrors
    · rw [if_pos hguard]
      have htrace2 : ∀ c, RQEvent.attempt c ∈
          ((if st.mustThrottle = true then trace ++ [RQEvent.throttleSleep] else trace) ++
            [RQEvent.attempt st.concurrentTasks]) →
          RQEvent.attempt c ∈ trace ∨ c = st.concurrentTasks := by
        intro c hc
        rcases List.mem_append.1 hc with h1 | h2
        · by_cases hmt : st.mustThrottle = true
          · rw [if_pos hmt] at h1
            rcases List.mem_append.1 h1 with h3 | h4
            · exact Or.inl h3
            · simp at h4
          · rw [if_neg hmt] at h1
            exact Or.inl h1
        · simp at h2
          exact Or.inr h2
      cases ho : tr idx with
      | resp status id =>
        dsimp only
        by_cases hsoft : isSoftErrorStatus status = true
        · rw [if_pos hsoft]
          by_cases hlast : soft + 1 ≥ cfg.maxAttemptsForSoftErrors
          · rw [if_pos hlast]
            exact ⟨htrace2, fun _ => rfl⟩
          · rw [if_neg hlast]
            obtain ⟨iha, ihb⟩ := ih (soft + 1) hard (idx + 1)
              { st with mustThrottle := true, consecutiveOkResponses := 0 }
              ((if st.mustThrottle = true then trace ++ [RQEvent.throttleSleep]
                  else trace) ++ [RQEvent.attempt st.concurrentTasks])
            refine ⟨fun c hc => ?_, ihb⟩
            rcases iha c hc with h1 | h2
            · exact htrace2 c h1
            · exact Or.inr h2
        · rw [if_neg hsoft]
          refine ⟨htrace2, fun _ => ?_⟩
          split <;> rfl
      | thrown e =>
        dsimp only
        by_cases hterm : soft ≥ cfg.maxAttemptsForSoftErrors - 1 ∨
            hard ≥ cfg.maxAttemptsForHardErrors - 1
        · rw [if_pos hterm]
          exact ⟨htrace2, fun _ => rfl⟩
        · rw [if_neg hterm]
          obtain ⟨iha, ihb⟩ := ih (soft + 1) (hard + 1) (idx + 1)
            { st with mustThrottle := true, consecutiveOkResponses := 0 }
            ((if st.mustThrottle = true then trace ++ [RQEvent.throttleSleep]
                else trace) ++ [RQEvent.attempt st.concurrentTasks])
          refine ⟨fun c hc => ?_, ihb⟩
          rcases iha c hc with h1 | h2
          · exact htrace2 c h1
          · exact Or.inr h2
    · rw [if_neg hguard]
      exact ⟨fun c hc => Or.inl hc, fun hr => absurd rfl hr⟩

/-- C6 (amended): a task's concurrency permit is held for its entire retry
lifetime: every fetch attempt of a `RequestQueue.fetch` task — the first and
every retry — executes while `concurrentTasks` still counts the task
(`st.concurrentTasks + 1`), and the permit is released exactly once, when the
task resolves or rethrows. -/
theorem rqFetch_permit_held_until_terminal (cfg : RQConfig)
    (tr : Nat → RQOutcome) (st : RQState) :
    (∀ c, RQEvent.attempt c ∈ (rqFetch cfg tr st).2.2.2 →
      c = st.concurrentTasks + 1) ∧
    ((rqFetch cfg tr st).1 ≠ RQResult.brokenLoop →
      (rqFetch cfg tr st).2.1.concurrentTasks = st.concurrentTasks) := by
  obtain ⟨ha, hb⟩ := rqTaskLoop_trace cfg tr cfg.maxAttemptsForSoftErrors 0 0 0
    { st with concurrentTasks := st.concurrentTasks + 1 } []
  unfold rqFetch
  constructor
  · intro c hc
    rcases ha c hc with h1 | h2
    · cases h1
    · exact h2
  · intro hr
    rw [hb hr]
    simp

/-- Witness for C6 (amended): in a run with one 429 retry, both attempts
record a held permit (count 1) and the final count returns to 0. -/
theorem rqFetch_permit_held_until_terminal_witness :
    ((1 : Int) = 0 + 1) ∧
    (rqFetch ⟨3, 5, 10, 30⟩
      (fun i => if i = 0 then RQOutcome.resp 429 0 else RQOutcome.resp 200 1)
      ⟨false, 0, 0⟩).2.1.concurrentTasks = 0 := by
  have T := rqFetch_permit_held_until_terminal ⟨3, 5, 10, 30⟩
    (fun i => if i = 0 then RQOutcome.resp 429 0 else RQOutcome.resp 200 1)
    ⟨false, 0, 0⟩
  exact ⟨T.1 1 (by decide), T.2 (by decide)⟩

/-- Counterexample for C6 as stated: with soft budget 3, a 429 on the first
attempt and success on the second, the event trace is
`[attempt 1, throttleSleep, attempt 1]`: between the retried first attempt
and the second attempt the task still occupies its concurrency slot
(`concurrentTasks = 1`, not `0`) — the permit is not released after each
attempt. -/
theorem rqFetch_permit_not_released_between_attempts :
    (rqFetch ⟨3, 5, 10, 30⟩
      (fun i => if i = 0 then RQOutcome.resp 429 0 else RQOutcome.resp 200 1)
      ⟨false, 0, 0⟩).2.2.2 =
      [RQEvent.attempt 1, RQEvent.throttleSleep, RQEvent.attempt 1] ∧
    (1 : Int) ≠ 0 := by
  constructor
  · rfl
  · decide

/-! ## C7 -/

lemma rqTaskLoop_trace_prefix (cfg : RQConfig) (tr : Nat → RQOutcome) :
    ∀ (fuel soft hard idx : Nat) (st : RQState) (trace : List RQEvent),
      ∃ extra, (rqTaskLoop cfg tr fuel soft hard idx st trace).2.2.2 =
        trace ++ extra := by
  intro fuel
  induction fuel with
  | zero => intro soft hard idx st trace; exact ⟨[], by simp [rqTaskLoop]⟩
  | succ fuel ih =>
    intro soft hard idx st trace
    simp only [rqTaskLoop]
    by_cases hguard : soft < cfg.maxAttemptsForSoftErrors ∧
        hard < cfg.maxAttemptsForHardErrors
    · rw [if_pos hguard]
      have hmid : ∀ l, ∃ pre,
          (if st.mustThrottle = true then trace ++ [RQEvent.throttleSleep] else trace)
            ++ l = trace ++ pre := by
        intro l
        by_cases hmt : st.mustThrottle = true
        · exact ⟨[RQEvent.throttleSleep] ++ l, by simp [hmt]⟩
        · exact ⟨l, by simp [hmt]⟩
      cases tr idx with
      | resp status id =>
        dsimp only
        by_cases hsoft : isSoftErrorStatus status = true
        · rw [if_pos hsoft]
          by_cases hlast : soft + 1 ≥ cfg.maxAttemptsForSoftErrors
          · rw [if_pos hlast]
            exact hmid _
          · rw [if_neg hlast]
            obtain ⟨pre, hpre⟩ := hmid [RQEvent.attempt st.concurrentTasks]
            obtain ⟨extra, hextra⟩ := ih (soft + 1) hard (idx + 1)
              { st with mustThrottle := true, consecutiveOkResponses := 0 }
              ((if st.mustThrottle = true then trace ++ [RQEvent.throttleSleep]
                  else trace) ++ [RQEvent.attempt st.concurrentTasks])
            exact ⟨pre ++ extra, by rw [hpre] at hextra ⊢; rw [hextra, List.append_assoc]⟩
        · rw [if_neg hsoft]
          exact hmid _
      | thrown e =>
        dsimp only
        by_cases hterm : soft ≥ cfg.maxAttemptsForSoftErrors - 1 ∨
            hard ≥ cfg.maxAttemptsForHardErrors - 1
        · rw [if_pos hterm]
          exact hmid _
        · rw [if_neg hterm]
          obtain ⟨pre, hpre⟩ := hmid [RQEvent.attempt st.concurrentTasks]
          obtain ⟨extra, hextra⟩ := ih (soft + 1) (hard + 1) (idx + 1)
            { st with mustThrottle := true, consecutiveOkResponses := 0 }
            ((if st.mustThrottle = true then trace ++ [RQEvent.throttleSleep]
                else trace) ++ [RQEvent.attempt st.concurrentTasks])
          exact ⟨pre ++ extra, by rw [hpre] at hextra ⊢; rw [hextra, List.append_assoc]⟩
    · rw [if_neg hguard]
      exact ⟨[], by simp⟩

lemma rqFetch_first_event_unthrottled (cfg : RQConfig) (tr : Nat → RQOutcome)
    (st : RQState) (hn : 1 ≤ cfg.maxAttemptsForSoftErrors)
    (hm : 1 ≤ cfg.maxAttemptsForHardErrors) (hmt : st.mustThrottle = false) :
    (rqFetch cfg tr st).2.2.2.head? =
      some (RQEvent.attempt (st.concurrentTasks + 1)) := by
  unfold rqFetch
  cases hfuel : cfg.maxAttemptsForSoftErrors with
  | zero => omega
  | succ fuel =>
    simp only [rqTaskLoop]
    rw [if_pos ⟨by omega, by omega⟩]
    have hmt2 : ({ st with concurrentTasks := st.concurrentTasks + 1} :
        RQState).mustThrottle = false := hmt
    rw [hmt2]
    simp only [Bool.false_eq_true, if_false, List.nil_append]
    cases tr 0 with
    | resp status id =>
      dsimp only
      by_cases hsoft : isSoftErrorStatus status = true
      · rw [if_pos hsoft]
        by_cases hlast : 0 + 1 ≥ cfg.maxAttemptsForSoftErrors
        · rw [if_pos hlast]
          rfl
        · rw [if_neg hlast]
          obtain ⟨extra, hextra⟩ := rqTaskLoop_trace_prefix cfg tr fuel 1 0 1
            { mustThrottle := true, consecutiveOkResponses := 0,
              concurrentTasks := st.concurrentTasks + 1 }
            [RQEvent.attempt (st.concurrentTasks + 1)]
          rw [hextra]
          rfl
      · rw [if_neg hsoft]
        rfl
    | thrown e =>
      dsimp only
      by_cases hterm : 0 ≥ cfg.maxAttemptsForSoftErrors - 1 ∨
          0 ≥ cfg.maxAttemptsForHardErrors - 1
      · rw [if_pos hterm]
        rfl
      · rw [if_neg hterm]
        obtain ⟨extra, hextra⟩ := rqTaskLoop_trace_prefix cfg tr fuel 1 1 1
          { mustThrottle := true, consecutiveOkResponses := 0,
            concurrentTasks := st.concurrentTasks + 1 }
          [RQEvent.attempt (st.concurrentTasks + 1)]
        rw [hextra]
        rfl

lemma rqOkTask_proj (cfg : RQConfig) (st : RQState)
    (hn : 1 ≤ cfg.maxAttemptsForSoftErrors)
    (hm : 1 ≤ cfg.maxAttemptsForHardErrors) :
    (rqOkTask cfg st).consecutiveOkResponses = st.consecutiveOkResponses + 1 ∧
    (rqOkTask cfg st).concurrentTasks = st.concurrentTasks ∧
    (rqOkTask cfg st).mustThrottle =
      (if st.consecutiveOkResponses + 1 > cfg.unthrottleAfterOkCount then false
       else st.mustThrottle) := by
  unfold rqOkTask rqFetch
  cases hfuel : cfg.maxAttemptsForSoftErrors with
  | zero => omega
  | succ fuel =>
    simp only [rqTaskLoop]
    rw [if_pos ⟨by omega, by omega⟩]
    dsimp only
    rw [if_neg (by decide : ¬isSoftErrorStatus 200 = true)]
    refine ⟨?_, ?_, ?_⟩ <;> (split <;> simp_all)

lemma rqOkTasks_proj (cfg : RQConfig)
    (hn : 1 ≤ cfg.maxAttemptsForSoftErrors)
    (hm : 1 ≤ cfg.maxAttemptsForHardErrors) :
    ∀ (k : Nat) (st : RQState),
      (rqOkTasks cfg k st).consecutiveOkResponses =
        st.consecutiveOkResponses + k ∧
      (rqOkTasks cfg k st).concurrentTasks = st.concurrentTasks ∧
      (1 ≤ k → st.consecutiveOkResponses + k > cfg.unthrottleAfterOkCount →
        (rqOkTasks cfg k st).mustThrottle = false) := by
  intro k
  induction k with
  | zero =>
    intro st
    exact ⟨by simp [rqOkTasks], by simp [rqOkTasks], by omega⟩
  | succ k ih =>
    intro st
    obtain ⟨p1, p2, p3⟩ := rqOkTask_proj cfg st hn hm
    obtain ⟨q1, q2, q3⟩ := ih (rqOkTask cfg st)
    simp only [rqOkTasks]
    refine ⟨?_, ?_, ?_⟩
    · rw [q1, p1]
      omega
    · rw [q2, p2]
    · intro _ hgt
      cases k with
      | zero =>
        simp only [rqOkTasks]
        rw [p3, if_pos (by omega)]
      | succ k2 =>
        exact q3 (by omega) (by rw [p1]; omega)

/-- C7 (amended): the code clears throttling only when
`consecutiveOkResponses` strictly exceeds `unthrottleAfterOkCount`, so after
`unthrottleAfterOkCount + 1` (or more) consecutive successful responses
throttled mode is cleared, a subsequent task with a free concurrency slot is
admitted immediately, and its first fetch attempt runs without the
randomized throttle-jitter sleep (the trace starts with the attempt, not the
sleep). -/
theorem rq_unthrottled_after_okCount_succ
    (cfg : RQConfig) (tr : Nat → RQOutcome) (st : RQState) (k : Nat)
    (hn : 1 ≤ cfg.maxAttemptsForSoftErrors)
    (hm : 1 ≤ cfg.maxAttemptsForHardErrors)
    (hk : cfg.unthrottleAfterOkCount + 1 ≤ k) :
    (rqOkTasks cfg k st).mustThrottle = false ∧
    ((rqOkTasks cfg k st).concurrentTasks < (cfg.maxConcurrentTasks : Int) →
      rqAdmitsImmediately cfg (rqOkTasks cfg k st)) ∧
    (rqFetch cfg tr (rqOkTasks cfg k st)).2.2.2.head? =
      some (RQEvent.attempt ((rqOkTasks cfg k st).concurrentTasks + 1)) := by
  obtain ⟨p1, p2, p3⟩ := rqOkTasks_proj cfg hn hm k st
  have hthr : (rqOkTasks cfg k st).mustThrottle = false := p3 (by omega) (by omega)
  exact ⟨hthr, fun hc => ⟨hc, hthr⟩,
    rqFetch_first_event_unthrottled cfg tr _ hn hm hthr⟩

/-- Witness for C7 (amended): `unthrottleAfterOkCount = 1`; after 2
consecutive successes throttling is off and the next task's trace starts
with its attempt. -/
theorem rq_unthrottled_after_okCount_succ_witness :
    1 ≤ 100 ∧ 1 ≤ 5 ∧ 1 + 1 ≤ 2 ∧
    (rqOkTasks ⟨100, 5, 1, 30⟩ 2 ⟨true, 0, 0⟩).mustThrottle = false ∧
    (rqFetch ⟨100, 5, 1, 30⟩ (fun _ => RQOutcome.resp 200 0)
        (rqOkTasks ⟨100, 5, 1, 30⟩ 2 ⟨true, 0, 0⟩)).2.2.2.head? =
      some (RQEvent.attempt 1) := by
  have T := rq_unthrottled_after_okCount_succ ⟨100, 5, 1, 30⟩
    (fun _ => RQOutcome.resp 200 0) ⟨true, 0, 0⟩ 2 (by decide) (by decide)
    (by decide)
  exact ⟨by decide, by decide, by decide, T.1, T.2.2⟩

/-- Counterexample for C7 as stated: with `unthrottleAfterOkCount = 1`, after
exactly 1 consecutive successful response the queue is still throttled
(`consecutiveOkResponses > unthrottleAfterOkCount` is strict), and the next
task's first attempt is preceded by the throttle-jitter sleep. -/
theorem rq_exact_okCount_still_throttled :
    (rqOkTasks ⟨100, 5, 1, 30⟩ 1 ⟨true, 0, 0⟩).mustThrottle = true ∧
    (rqFetch ⟨100, 5, 1, 30⟩ (fun _ => RQOutcome.resp 200 0)
        (rqOkTasks ⟨100, 5, 1, 30⟩ 1 ⟨true, 0, 0⟩)).2.2.2.head? =
      some RQEvent.throttleSleep :=
  ⟨rfl, rfl⟩

/-! ## C8 / C9 helper lemmas -/

lemma esploraGetTip_preserves (st : EsploraState) (now remote : Int)
    (bh : Option Int) :
    (esploraGetTipBlockHeight st now remote bh).2.maxTxPerScriptPubKey =
      st.maxTxPerScriptPubKey := by
  unfold esploraGetTipBlockHeight
  split <;> rfl

lemma limitPush (acc : List TxEntry) (e : TxEntry) (stp : EsploraState) (kp : Nat) :
    (if (acc ++ [e]).length > stp.maxTxPerScriptPubKey then
        (Except.error "Too many transactions per address" :
          Except String (List TxEntry × EsploraState × Nat))
      else Except.ok (acc ++ [e], stp, kp)) =
        Except.error "Too many transactions per address" ∨
    ((if (acc ++ [e]).length > stp.maxTxPerScriptPubKey then
        (Except.error "Too many transactions per address" :
          Except String (List TxEntry × EsploraState × Nat))
      else Except.ok (acc ++ [e], stp, kp)) = Except.ok (acc ++ [e], stp, kp) ∧
      acc.length + 1 ≤ stp.maxTxPerScriptPubKey) := by
  by_cases hlen : (acc ++ [e]).length > stp.maxTxPerScriptPubKey
  · left
    rw [if_pos hlen]
  · right
    refine ⟨by rw [if_neg hlen], ?_⟩
    simp only [List.length_append, List.length_singleton] at hlen
    omega

lemma esploraProcessTx_general (env : Nat → Int × Int) (tx : FetchedTx)
    (acc : List TxEntry) (st : EsploraState) (k : Nat) :
    esploraProcessTx env tx acc st k =
      Except.error "Too many transactions per address" ∨
    ∃ entry st2 k2,
      esploraProcessTx env tx acc st k = Except.ok (acc ++ [entry], st2, k2) ∧
      acc.length + 1 ≤ st.maxTxPerScriptPubKey ∧
      st2.maxTxPerScriptPubKey = st.maxTxPerScriptPubKey ∧
      (entry.blockHeight = 0 → entry.irreversible = false) := by
  unfold esploraProcessTx
  rcases tx with ⟨txid, obh, ohash, otime⟩
  dsimp only
  cases ohash with
  | none =>
    rcases limitPush acc ⟨txid, 0, false⟩ st k with h | ⟨h, hlen⟩
    · exact Or.inl h
    · exact Or.inr ⟨⟨txid, 0, false⟩, st, k, h, hlen, rfl, fun _ => rfl⟩
  | some hsh =>
    cases otime with
    | none =>
      rcases limitPush acc ⟨txid, 0, false⟩ st k with h | ⟨h, hlen⟩
      · exact Or.inl h
      · exact Or.inr ⟨⟨txid, 0, false⟩, st, k, h, hlen, rfl, fun _ => rfl⟩
    | some t =>
      cases obh with
      | none =>
        rcases limitPush acc ⟨txid, 0, false⟩ st k with h | ⟨h, hlen⟩
        · exact Or.inl h
        · exact Or.inr ⟨⟨txid, 0, false⟩, st, k, h, hlen, rfl, fun _ => rfl⟩
      | some bh =>
        dsimp only
        by_cases hcond : (hsh != "" && t != 0 && bh != 0) = true
        · rw [if_pos hcond]
          have hbh : bh ≠ 0 := by
            simp only [Bool.and_eq_true, bne_iff_ne] at hcond
            exact hcond.2
          rcases limitPush acc
            ⟨txid, bh, decide ((esploraGetTipBlockHeight st (env k).1 (env k).2
                (some 0)).1 - bh + 1 ≥
              (esploraGetTipBlockHeight st (env k).1 (env k).2
                (some 0)).2.irrevConfThresh)⟩
            { (esploraGetTipBlockHeight st (env k).1 (env k).2 (some 0)).2 with
              blockStatusMap := mapSet
                (esploraGetTipBlockHeight st (env k).1 (env k).2
                  (some 0)).2.blockStatusMap bh
                ⟨bh, hsh, t, decide ((esploraGetTipBlockHeight st (env k).1
                    (env k).2 (some 0)).1 - bh + 1 ≥
                  (esploraGetTipBlockHeight st (env k).1 (env k).2
                    (some 0)).2.irrevConfThresh)⟩ }
            (k + 1) with h | ⟨h, hlen⟩
          · exact Or.inl h
          · refine Or.inr ⟨_, _, _, h, ?_, ?_, fun h0 => absurd h0 hbh⟩
            · rw [esploraGetTip_preserves] at hlen
              exact hlen
            · exact esploraGetTip_preserves st (env k).1 (env k).2 (some 0)
        · rw [if_neg hcond]
          rcases limitPush acc ⟨txid, 0, false⟩ st k with h | ⟨h, hlen⟩
          · exact Or.inl h
          · exact Or.inr ⟨⟨txid, 0, false⟩, st, k, h, hlen, rfl, fun _ => rfl⟩

lemma esploraProcessPage_ok (env : Nat → Int × Int) :
    ∀ (txs : List FetchedTx) (acc : List TxEntry) (st : EsploraState) (k : Nat)
      (acc2 : List TxEntry) (st2 : EsploraState) (k2 : Nat),
      esploraProcessPage env txs acc st k = Except.ok (acc2, st2, k2) →
      acc2.length = acc.length + txs.length ∧
      st2.maxTxPerScriptPubKey = st.maxTxPerScriptPubKey ∧
      (txs ≠ [] → acc2.length ≤ st.maxTxPerScriptPubKey) ∧
      ∃ suffix, acc2 = acc ++ suffix ∧
        ∀ e ∈ suffix, e.blockHeight = 0 → e.irreversible = false := by
  intro txs
  induction txs with
  | nil =>
    intro acc st k acc2 st2 k2 hok
    simp only [esploraProcessPage] at hok
    injection hok with h
    injection h with h1 h2
    injection h2 with h2 h3
    subst h1
    subst h2
    exact ⟨rfl, rfl, fun hne => absurd rfl hne, [], by simp, by simp⟩
  | cons tx rest ih =>
    intro acc st k acc2 st2 k2 hok
    simp only [esploraProcessPage] at hok
    rcases esploraProcessTx_general env tx acc st k with herr | ⟨e, stm, km, hoktx, hlen, hmax, hP⟩
    · rw [herr] at hok
      cases hok
    · rw [hoktx] at hok
      obtain ⟨q1, q2, q3, suffix, hsuf, hsufP⟩ := ih (acc ++ [e]) stm km acc2 st2 k2 hok
      refine ⟨?_, ?_, ?_, [e] ++ suffix, ?_, ?_⟩
      · rw [q1]
        have hae : (acc ++ [e]).length = acc.length + 1 := by simp
        rw [hae]
        simp only [List.length_cons]
        omega
      · rw [q2, hmax]
      · intro _
        by_cases hre : rest = []
        · subst hre
          have hok2 : (Except.ok (acc ++ [e], stm, km) :
              Except String (List TxEntry × EsploraState × Nat)) =
              Except.ok (acc2, st2, k2) := hok
          injection hok2 with h
          injection h with h1 h2
          subst h1
          simpa using hlen
        · have h4 := q3 hre
          rw [hmax] at h4
          exact h4
      · rw [hsuf, List.append_assoc]
      · intro e2 he2
        rcases List.mem_append.1 he2 with h1 | h2
        · simp at h1
          subst h1
          exact hP
        · exact hsufP e2 h2

lemma esploraProcessPage_error (env : Nat → Int × Int) :
    ∀ (txs : List FetchedTx) (acc : List TxEntry) (st : EsploraState) (k : Nat)
      (e : String),
      esploraProcessPage env txs acc st k = Except.error e →
      e = "Too many transactions per address" := by
  intro txs
  induction txs with
  | nil =>
    intro acc st k e herr
    simp only [esploraProcessPage] at herr
    exact Except.noConfusion herr
  | cons tx rest ih =>
    intro acc st k e herr
    simp only [esploraProcessPage] at herr
    rcases esploraProcessTx_general env tx acc st k with h2 | ⟨en, stm, km, hoktx, -, -, -⟩
    · rw [h2] at herr
      injection herr with h
      exact h.symm
    · rw [hoktx] at herr
      exact ih (acc ++ [en]) stm km e herr

lemma esploraLoop_ok (env : Nat → Int × Int) :
    ∀ (pages : List (List FetchedTx)) (acc : List TxEntry) (st : EsploraState)
      (k : Nat) (acc2 : List TxEntry) (st2 : EsploraState),
      esploraFetchTxHistoryLoop env pages acc st k = Except.ok (acc2, st2) →
      acc.length ≤ st.maxTxPerScriptPubKey →
      (∀ e ∈ acc, e.blockHeight = 0 → e.irreversible = false) →
      acc2.length ≤ st.maxTxPerScriptPubKey ∧
      ∀ e ∈ acc2, e.blockHeight = 0 → e.irreversible = false := by
  intro pages
  induction pages with
  | nil =>
    intro acc st k acc2 st2 hok hlen hP
    simp only [esploraFetchTxHistoryLoop] at hok
    injection hok with h
    injection h with h1 h2
    subst h1
    exact ⟨hlen, hP⟩
  | cons page rest ih =>
    intro acc st k acc2 st2 hok hlen hP
    simp only [esploraFetchTxHistoryLoop] at hok
    cases hlast : page.getLast? with
    | none =>
      rw [hlast] at hok
      injection hok with h
      injection h with h1 h2
      subst h1
      exact ⟨hlen, hP⟩
    | some lastTx =>
      rw [hlast] at hok
      dsimp only at hok
      cases hpp : esploraProcessPage env page acc st k with
      | error e =>
        rw [hpp] at hok
        exact Except.noConfusion hok
      | ok r =>
        obtain ⟨accP, stP, kP⟩ := r
        rw [hpp] at hok
        dsimp only at hok
        have hpage_ne : page ≠ [] := by
          intro hnil
          rw [hnil] at hlast
          exact Option.noConfusion hlast
        obtain ⟨p1, p2, p3, suffix, hs, hsp⟩ :=
          esploraProcessPage_ok env page acc st k accP stP kP hpp
        have hlenP : accP.length ≤ st.maxTxPerScriptPubKey := p3 hpage_ne
        have hPP : ∀ e ∈ accP, e.blockHeight = 0 → e.irreversible = false := by
          rw [hs]
          intro e he
          rcases List.mem_append.1 he with h1 | h2
          · exact hP e h1
          · exact hsp e h2
        by_cases hcont : lastTx.block_height ≠ some 0
        · rw [if_pos hcont] at hok
          have hres := ih accP stP kP acc2 st2 hok (by rw [p2]; exact hlenP) hPP
          rw [p2] at hres
          exact hres
        · rw [if_neg hcont] at hok
          injection hok with h
          injection h with h1 h2
          subst h1
          exact ⟨hlenP, hPP⟩

lemma esploraLoop_error (env : Nat → Int × Int) :
    ∀ (pages : List (List FetchedTx)) (acc : List TxEntry) (st : EsploraState)
      (k : Nat) (e : String),
      esploraFetchTxHistoryLoop env pages acc st k = Except.error e →
      e = "Too many transactions per address" := by
  intro pages
  induction pages with
  | nil =>
    intro acc st k e herr
    simp only [esploraFetchTxHistoryLoop] at herr
    exact Except.noConfusion herr
  | cons page rest ih =>
    intro acc st k e herr
    simp only [esploraFetchTxHistoryLoop] at herr
    cases hlast : page.getLast? with
    | none =>
      rw [hlast] at herr
      exact Except.noConfusion herr
    | some lastTx =>
      rw [hlast] at herr
      dsimp only at herr
      cases hpp : esploraProcessPage env page acc st k with
      | error e2 =>
        rw [hpp] at herr
        injection herr with h
        rw [← h]
        exact esploraProcessPage_error env page acc st k e2 hpp
      | ok r =>
        obtain ⟨accP, stP, kP⟩ := r
        rw [hpp] at herr
        dsimp only at herr
        by_cases hcont : lastTx.block_height ≠ some 0
        · rw [if_pos hcont] at herr
          exact ih accP stP kP e herr
        · rw [if_neg hcont] at herr
          exact Except.noConfusion herr

lemma electrumTxMapStep_thresh (st : ElectrumState) (item : HistoryItem) :
    (electrumTxMapStep st item).2.irrevConfThresh = st.irrevConfThresh := by
  unfold electrumTxMapStep
  dsimp only
  split <;> split <;> rfl

lemma electrumTxMapStep_mempool (st : ElectrumState) (item : HistoryItem)
    (hth : st.irrevConfThresh ≥ 1) :
    (electrumTxMapStep st item).1.blockHeight = 0 →
    (electrumTxMapStep st item).1.irreversible = false := by
  unfold electrumTxMapStep
  dsimp only
  intro h0
  rw [if_pos h0]
  split <;> split <;> (apply decide_eq_false; show ¬(0 : Int) ≥ st.irrevConfThresh; omega)

lemma electrumTxMap_mempool :
    ∀ (history : List HistoryItem) (st : ElectrumState),
      st.irrevConfThresh ≥ 1 →
      ∀ e ∈ (electrumTxMap st history).1,
        e.blockHeight = 0 → e.irreversible = false := by
  intro history
  induction history with
  | nil =>
    intro st hth e he
    simp [electrumTxMap] at he
  | cons item rest ih =>
    intro st hth e he
    simp only [electrumTxMap] at he
    rcases List.mem_cons.1 he with h1 | h2
    · subst h1
      exact electrumTxMapStep_mempool st item hth
    · exact ih (electrumTxMapStep st item).2
        (by rw [electrumTxMapStep_thresh]; exact hth) e h2

/-! ## C8 -/

/-- C8: a transaction history with strictly more than `maxTxPerScriptPubKey`
entries makes `fetchTxHistory` throw `Too many transactions per address`
instead of resolving: Electrum checks the history length up front; Esplora
never resolves with more than the limit (any resolved list is within it and
nothing is truncated — the run throws as soon as the accumulated history
exceeds the limit, e.g. for a single page longer than the limit). -/
theorem fetchTxHistory_limit_exceeded_throws
    (est : ElectrumState) (history : List HistoryItem)
    (es es2 : EsploraState) (env : Nat → Int × Int)
    (pages : List (List FetchedTx)) (page : List FetchedTx) (l : List TxEntry) :
    (history.length > est.maxTxPerScriptPubKey →
      electrumFetchTxHistory est history =
        Except.error "Too many transactions per address") ∧
    (esploraFetchTxHistory env pages es = Except.ok (l, es2) →
      l.length ≤ es.maxTxPerScriptPubKey) ∧
    (page.length > es.maxTxPerScriptPubKey →
      esploraFetchTxHistory env [page] es =
        Except.error "Too many transactions per address") := by
  refine ⟨?_, ?_, ?_⟩
  · intro hbig
    unfold electrumFetchTxHistory
    rw [if_pos hbig]
  · intro hok
    unfold esploraFetchTxHistory at hok
    cases hloop : esploraFetchTxHistoryLoop env pages [] es 0 with
    | error e =>
      rw [hloop] at hok
      exact Except.noConfusion hok
    | ok r =>
      obtain ⟨acc, st2⟩ := r
      rw [hloop] at hok
      dsimp only at hok
      injection hok with h
      injection h with h1 h2
      obtain ⟨hlen, -⟩ := esploraLoop_ok env pages [] es 0 acc st2 hloop
        (by simp) (by simp)
      rw [← h1]
      simpa using hlen
  · intro hbig
    have hne : page ≠ [] := by
      intro h
      rw [h] at hbig
      simp at hbig
    unfold esploraFetchTxHistory
    cases hloop : esploraFetchTxHistoryLoop env [page] [] es 0 with
    | error e =>
      have he := esploraLoop_error env [page] [] es 0 e hloop
      dsimp only
      rw [he]
    | ok r =>
      obtain ⟨acc, st2⟩ := r
      exfalso
      simp only [esploraFetchTxHistoryLoop] at hloop
      cases hlast : page.getLast? with
      | none => exact hne (List.getLast?_eq_none_iff.1 hlast)
      | some lastTx =>
        rw [hlast] at hloop
        dsimp only at hloop
        cases hpp : esploraProcessPage env page [] es 0 with
        | error e =>
          rw [hpp] at hloop
          exact Except.noConfusion hloop
        | ok r2 =>
          obtain ⟨accP, stP, kP⟩ := r2
          obtain ⟨p1, -, p3, -⟩ :=
            esploraProcessPage_ok env page [] es 0 accP stP kP hpp
          have := p3 hne
          simp only [List.length_nil] at p1
          omega

/-- Witness for C8: limit 1, two transactions on each backend → throws. -/
theorem fetchTxHistory_limit_exceeded_throws_witness :
    2 > 1 ∧
    electrumFetchTxHistory ⟨some 10, fun _ => none, 3, 1⟩
      [⟨"a", 1⟩, ⟨"b", 2⟩] = Except.error "Too many transactions per address" ∧
    esploraFetchTxHistory (fun _ => (0, 10))
      [[⟨"t1", some 5, some "h1", some 100⟩, ⟨"t2", some 6, some "h2", some 101⟩]]
      ⟨10, 0, fun _ => none, 3, 1⟩ =
      Except.error "Too many transactions per address" ∧
    ([] : List TxEntry).length ≤ 1 := by
  have T := fetchTxHistory_limit_exceeded_throws ⟨some 10, fun _ => none, 3, 1⟩
    [⟨"a", 1⟩, ⟨"b", 2⟩] ⟨10, 0, fun _ => none, 3, 1⟩ ⟨10, 0, fun _ => none, 3, 1⟩
    (fun _ => (0, 10)) []
    [⟨"t1", some 5, some "h1", some 100⟩, ⟨"t2", some 6, some "h2", some 101⟩] []
  exact ⟨by decide, T.1 (by decide), T.2.2 (by decide), T.2.1 rfl⟩

/-! ## C9 -/

/-- C9: with `irrevConfThresh ≥ 1`, every entry of a resolved
`fetchTxHistory` whose `blockHeight` is `0` (unconfirmed / mempool, including
Electrum's `-1` mapped to `0`) has `irreversible = false`, on both
backends. -/
theorem fetchTxHistory_mempool_not_irreversible
    (est est2 : ElectrumState) (history : List HistoryItem) (l : List TxEntry)
    (es es2 : EsploraState) (env : Nat → Int × Int)
    (pages : List (List FetchedTx)) (l2 : List TxEntry)
    (hthE : est.irrevConfThresh ≥ 1) (_hthS : es.irrevConfThresh ≥ 1)
    (hE : electrumFetchTxHistory est history = Except.ok (l, est2))
    (hS : esploraFetchTxHistory env pages es = Except.ok (l2, es2)) :
    (∀ e ∈ l, e.blockHeight = 0 → e.irreversible = false) ∧
    (∀ e ∈ l2, e.blockHeight = 0 → e.irreversible = false) := by
  constructor
  · unfold electrumFetchTxHistory at hE
    by_cases hbig : history.length > est.maxTxPerScriptPubKey
    · rw [if_pos hbig] at hE
      exact Except.noConfusion hE
    · rw [if_neg hbig] at hE
      injection hE with h
      have h1 : (electrumTxMap est history).1 = l := by rw [h]
      intro e he hb
      exact electrumTxMap_mempool history est hthE e (h1 ▸ he) hb
  · unfold esploraFetchTxHistory at hS
    cases hloop : esploraFetchTxHistoryLoop env pages [] es 0 with
    | error e =>
      rw [hloop] at hS
      exact Except.noConfusion hS
    | ok r =>
      obtain ⟨acc, st2⟩ := r
      rw [hloop] at hS
      dsimp only at hS
      injection hS with h
      injection h with h1 h2
      obtain ⟨-, hP⟩ := esploraLoop_ok env pages [] es 0 acc st2 hloop
        (by simp) (by simp)
      intro e he hb
      apply hP e _ hb
      rw [← h1] at he
      exact List.mem_reverse.1 he

/-- Witness for C9: Electrum height `-1` and an Esplora mempool transaction
both yield `blockHeight = 0`, `irreversible = false` entries. -/
theorem fetchTxHistory_mempool_not_irreversible_witness :
    ((⟨"a", 0, false⟩ : TxEntry).irreversible = false) ∧
    ((⟨"m", 0, false⟩ : TxEntry).irreversible = false) := by
  have T := fetchTxHistory_mempool_not_irreversible
    ⟨some 10, fun _ => none, 3, 1000⟩ ⟨some 10, fun _ => none, 3, 1000⟩
    [⟨"a", -1⟩] [⟨"a", 0, false⟩]
    ⟨10, 0, fun _ => none, 3, 1000⟩ ⟨10, 0, fun _ => none, 3, 1000⟩
    (fun _ => (0, 10)) [[⟨"m", none, none, none⟩]] [⟨"m", 0, false⟩]
    (by decide) (by decide) (by rfl) (by rfl)
  exact ⟨T.1 ⟨"a", 0, false⟩ (by simp) rfl, T.2 ⟨"m", 0, false⟩ (by simp) rfl⟩

/-! ## C10 helper lemmas -/

lemma hexDigitVal_lt (c : Char) (d : Nat) (h : hexDigitVal c = some d) :
    d < 16 := by
  unfold hexDigitVal at h
  split at h
  · rename_i hc
    injection h with h
    subst h
    have a1 : (48 : Nat) ≤ c.val.toNat := hc.1
    have a2 : c.val.toNat ≤ 57 := hc.2
    unfold Char.toNat
    omega
  · split at h
    · rename_i hc
      injection h with h
      subst h
      have a1 : (97 : Nat) ≤ c.val.toNat := hc.1
      have a2 : c.val.toNat ≤ 102 := hc.2
      unfold Char.toNat
      omega
    · split at h
      · rename_i hc
        injection h with h
        subst h
        have a1 : (65 : Nat) ≤ c.val.toNat := hc.1
        have a2 : c.val.toNat ≤ 70 := hc.2
        unfold Char.toNat
        omega
      · exact Option.noConfusion h

lemma hexChar_spec (c : Char) (hc : c ∈ lowerHexChars) :
    hexDigitVal c = some ((hexDigitVal c).getD 0) ∧
    toHexDigit ((hexDigitVal c).getD 0) = c := by
  fin_cases hc <;> exact ⟨by decide, by decide⟩

lemma hexDigitVal_toHexDigit (d : Nat) (hd : d < 16) :
    hexDigitVal (toHexDigit d) = some d := by
  interval_cases d <;> decide

lemma toHexDigit_mem (d : Nat) (hd : d < 16) : toHexDigit d ∈ lowerHexChars := by
  interval_cases d <;> decide

lemma hexDecode_lt : ∀ (cs : List Char) (b : Nat), b ∈ hexDecode cs → b < 256
  | [], b, hb => by simp [hexDecode] at hb
  | [c], b, hb => by simp [hexDecode] at hb
  | c1 :: c2 :: rest, b, hb => by
    simp only [hexDecode] at hb
    cases h1 : hexDigitVal c1 with
    | none =>
      rw [h1] at hb
      simp at hb
    | some hv =>
      cases h2 : hexDigitVal c2 with
      | none =>
        rw [h1, h2] at hb
        simp at hb
      | some lv =>
        rw [h1, h2] at hb
        rcases List.mem_cons.1 hb with h | h
        · subst h
          have := hexDigitVal_lt c1 hv h1
          have := hexDigitVal_lt c2 lv h2
          omega
        · exact hexDecode_lt rest b h

lemma hexEncode_decode : ∀ (l : List Nat), (∀ b ∈ l, b < 256) →
    hexDecode (hexEncode l) = l
  | [], _ => rfl
  | b :: rest, h => by
    have hb : b < 256 := h b (by simp)
    have h16a : b / 16 < 16 := by omega
    have h16b : b % 16 < 16 := by omega
    rw [hexEncode]
    rw [hexDecode]
    rw [hexDigitVal_toHexDigit _ h16a, hexDigitVal_toHexDigit _ h16b]
    dsimp only
    rw [hexEncode_decode rest (fun x hx => h x (by simp [hx]))]
    congr 1
    exact Nat.div_add_mod b 16

lemma hexDecode_encode : ∀ (cs : List Char),
    (∀ c ∈ cs, c ∈ lowerHexChars) → cs.length % 2 = 0 →
    hexEncode (hexDecode cs) = cs
  | [], _, _ => rfl
  | [c], _, hlen => by simp at hlen
  | c1 :: c2 :: rest, hval, hlen => by
    obtain ⟨h1eq, h1enc⟩ := hexChar_spec c1 (hval c1 (by simp))
    obtain ⟨h2eq, h2enc⟩ := hexChar_spec c2 (hval c2 (by simp))
    set d1 := (hexDigitVal c1).getD 0 with hd1def
    set d2 := (hexDigitVal c2).getD 0 with hd2def
    have hlt1 : d1 < 16 := hexDigitVal_lt c1 d1 h1eq
    have hlt2 : d2 < 16 := hexDigitVal_lt c2 d2 h2eq
    rw [hexDecode]
    rw [h1eq, h2eq]
    dsimp only
    rw [hexEncode]
    have e1 : (16 * d1 + d2) / 16 = d1 := by omega
    have e2 : (16 * d1 + d2) % 16 = d2 := by omega
    rw [e1, e2, h1enc, h2enc,
      hexDecode_encode rest (fun c hc => hval c (by simp [hc]))
        (by simp only [List.length_cons] at hlen; omega)]

lemma hexDecode_ne_nil (l : List Char)
    (hval : ∀ c ∈ l, c ∈ lowerHexChars) (hlen : l.length % 2 = 0)
    (hne : l ≠ []) : hexDecode l ≠ [] := by
  cases l with
  | nil => exact absurd rfl hne
  | cons c1 l2 =>
    cases l2 with
    | nil => simp at hlen
    | cons c2 rest =>
      obtain ⟨h1eq, -⟩ := hexChar_spec c1 (hval c1 (by simp))
      obtain ⟨h2eq, -⟩ := hexChar_spec c2 (hval c2 (by simp))
      rw [hexDecode, h1eq, h2eq]
      simp

lemma hexEncode_ne_nil (l : List Nat) (hne : l ≠ []) : hexEncode l ≠ [] := by
  cases l with
  | nil => exact absurd rfl hne
  | cons b rest =>
    rw [hexEncode]
    simp

/-! ## C10 -/

/-- C10 (amended): `reverseScriptHash` is an involution on non-empty
lower-case hexadecimal strings of even length (byte-order reversal twice
restores the input), and `reverseScriptHash undefined = undefined`.  (The
empty string — excluded here — is falsy in JS and maps to `undefined`.) -/
theorem reverseScriptHash_involution (s : String)
    (hhex : IsLowerHexEven s) (hne : s ≠ "") :
    reverseScriptHash (reverseScriptHash (some s)) = some s ∧
    reverseScriptHash none = none := by
  refine ⟨?_, rfl⟩
  obtain ⟨hval, hlen⟩ := hhex
  obtain ⟨l⟩ := s
  have hval2 : ∀ c ∈ l, c ∈ lowerHexChars := hval
  have hlen2 : l.length % 2 = 0 := hlen
  have hlne : l ≠ [] := by
    intro h
    subst h
    exact hne rfl
  have hbytes : ∀ b ∈ (hexDecode l).reverse, b < 256 := by
    intro b hb
    exact hexDecode_lt l b (List.mem_reverse.1 hb)
  have hdne : hexEncode ((hexDecode l).reverse) ≠ [] :=
    hexEncode_ne_nil _ (by
      simp only [ne_eq, List.reverse_eq_nil_iff]
      exact hexDecode_ne_nil l hval2 hlen2 hlne)
  have hinner : reverseScriptHash (some (String.mk l)) =
      some (String.mk (hexEncode ((hexDecode l).reverse))) := by
    unfold reverseScriptHash
    dsimp only
    rw [if_neg hne]
  have htne : String.mk (hexEncode ((hexDecode l).reverse)) ≠ "" := by
    intro h
    exact hdne (congrArg String.data h)
  have houter : reverseScriptHash
      (some (String.mk (hexEncode ((hexDecode l).reverse)))) =
      some (String.mk (hexEncode
        ((hexDecode (hexEncode ((hexDecode l).reverse))).reverse))) := by
    unfold reverseScriptHash
    dsimp only
    rw [if_neg htne]
  rw [hinner, houter, hexEncode_decode _ hbytes, List.reverse_reverse,
    hexDecode_encode l hval2 hlen2]

/-- Witness for C10: `"ab12"` (bytes `ab 12`) reverses to `"12ab"` and back.
-/
theorem reverseScriptHash_involution_witness :
    IsLowerHexEven "ab12" ∧ "ab12" ≠ "" ∧
    reverseScriptHash (some "ab12") = some "12ab" ∧
    reverseScriptHash (reverseScriptHash (some "ab12")) = some "ab12" := by
  have h1 : IsLowerHexEven "ab12" := ⟨by decide, by decide⟩
  exact ⟨h1, by decide, by decide,
    (reverseScriptHash_involution "ab12" h1 (by decide)).1⟩

/-- Counterexample for C10 as stated: the empty string is a lower-case hex
string of even length, but `reverseScriptHash ""` is `undefined` (the empty
string is falsy in JS), so applying `reverseScriptHash` twice yields
`undefined`, not `""`. -/
theorem reverseScriptHash_empty_not_involutive :
    IsLowerHexEven "" ∧
    reverseScriptHash (reverseScriptHash (some "")) = none ∧
    reverseScriptHash (reverseScriptHash (some "")) ≠ some "" := by
  refine ⟨⟨by decide, by decide⟩, rfl, by decide⟩
